import Mathlib

/-!
Verification of the core pipeline of `gen-orgchart.py` (ldap-ad-utils):
the record normalizer (`canonicalize_attrs`, `attr_s`), the org-model
builder (`result_to_org`), and the chart renderer (`gen_orgchart` with the
Jinja2 template `ORGCHART_TEMPLATE_STR`, filters `snake_case` and
`name_and_title`, and helpers `name_s` / `title_s` / `dn_to_ident`).

Python dicts are modelled as insertion-ordered association lists (CPython
3.7+ dicts preserve insertion order, which the template iteration relies
on). Python byte strings are lists of byte values.
-/

namespace GenOrgchart

/-- One raw LDAP attribute value: a Python byte string, one `Nat` per byte. -/
abbrev ByteStr := List Nat

/-- A raw LDAP entry as handed to the normalizer: an insertion-ordered
mapping from attribute name to list of byte values (a Python dict). -/
abbrev Entry := List (String × List ByteStr)

/-- Lookup in an insertion-ordered association list (Python `d[k]` / `k in d`). -/
def lookupA {α : Type} : List (String × α) → String → Option α
  | [], _ => none
  | (k, v) :: rest, key => if k = key then some v else lookupA rest key

/-- Python dict assignment `d[k] = v`: replace in place if the key exists
(keeping its position), otherwise append at the end. -/
def updAssoc {α : Type} : List (String × α) → String → α → List (String × α)
  | [], key, v => [(key, v)]
  | (k, w) :: rest, key, v =>
    if k = key then (k, v) :: rest else (k, w) :: updAssoc rest key v

/-- Python `d.setdefault(k, []).append(v)`: append `v` to the list stored at
`k`, creating the list at the end of the dict on first use. -/
def appendAssoc {α : Type} : List (String × List α) → String → α → List (String × List α)
  | [], key, v => [(key, [v])]
  | (k, ws) :: rest, key, v =>
    if k = key then (k, ws ++ [v]) :: rest else (k, ws) :: appendAssoc rest key v

/-- The list stored at `key`, or `[]` if the key is absent. -/
def lookupList {α : Type} (m : List (String × List α)) (key : String) : List α :=
  (lookupA m key).getD []

/-- The attribute rename table `MAP_ATTRS` of gen-orgchart.py. -/
def MAP_ATTRS : List (String × String) :=
  [("department", "departmentNumber"),
   ("comment", "description"),
   ("company", "o"),
   ("employeeID", "employeeNumber"),
   ("thumbnailPhoto", "jpegPhoto"),
   ("streetaddress", "street")]

/-- Models `canonicalize_attrs(entry, MAP_ATTRS)`:

    for attr in entry:
        if attr in attr_map:
            entry[attr_map[attr]] = entry.pop(attr)

The loop mutates the dict while iterating over it. Under CPython dict
iteration semantics, the first visited key that is in the rename table
triggers `entry.pop` plus an insertion, and the next call to the iterator
raises a `RuntimeError`: "dictionary changed size during iteration" when the
canonical target key was already present (the insertion overwrites it, so
the size shrinks; this raises on every Python 3), and "dictionary keys
changed during iteration" otherwise (the key-set changed at equal size;
this raises on Python 3.8 and later, the versions current today). Only an
entry with no renameable key completes the loop, returning the dict
unchanged. The model returns `Except.error` for the raised exception. -/
def canonicalize_attrs (entry : Entry) : Except String Entry :=
  match entry.find? (fun p => (lookupA MAP_ATTRS p.1).isSome) with
  | none => .ok entry
  | some p =>
    if ((lookupA MAP_ATTRS p.1).bind (lookupA entry)).isSome then
      .error "RuntimeError: dictionary changed size during iteration"
    else
      .error "RuntimeError: dictionary keys changed during iteration"

/-- True for bytes 0x80-0xBF, the UTF-8 continuation range. -/
def utf8Cont (b : Nat) : Bool := 0x80 ≤ b && b ≤ 0xBF

/-- Models Python `bytes.decode("utf-8")` in its default strict mode (the
RFC 3629 table: no overlong forms, no surrogates, nothing above U+10FFFF).
Returns `none` where Python raises `UnicodeDecodeError`. -/
def utf8Decode : ByteStr → Option (List Char)
  | [] => some []
  | b :: bs =>
    if b ≤ 0x7F then
      (utf8Decode bs).map (fun cs => Char.ofNat b :: cs)
    else if 0xC2 ≤ b && b ≤ 0xDF then
      match bs with
      | b2 :: bs2 =>
        if utf8Cont b2 then
          (utf8Decode bs2).map (fun cs => Char.ofNat ((b - 0xC0) * 64 + (b2 - 0x80)) :: cs)
        else none
      | [] => none
    else if 0xE0 ≤ b && b ≤ 0xEF then
      match bs with
      | b2 :: b3 :: bs3 =>
        if (if b = 0xE0 then 0xA0 ≤ b2 && b2 ≤ 0xBF
            else if b = 0xED then 0x80 ≤ b2 && b2 ≤ 0x9F
            else utf8Cont b2) && utf8Cont b3 then
          (utf8Decode bs3).map
            (fun cs => Char.ofNat ((b - 0xE0) * 4096 + (b2 - 0x80) * 64 + (b3 - 0x80)) :: cs)
        else none
      | _ => none
    else if 0xF0 ≤ b && b ≤ 0xF4 then
      match bs with
      | b2 :: b3 :: b4 :: bs4 =>
        if (if b = 0xF0 then 0x90 ≤ b2 && b2 ≤ 0xBF
            else if b = 0xF4 then 0x80 ≤ b2 && b2 ≤ 0x8F
            else utf8Cont b2) && utf8Cont b3 && utf8Cont b4 then
          (utf8Decode bs4).map
            (fun cs =>
              Char.ofNat ((b - 0xF0) * 262144 + (b2 - 0x80) * 4096 + (b3 - 0x80) * 64 + (b4 - 0x80)) :: cs)
        else none
      | _ => none
    else none

/-- Models `attr_s(entry, attr_name)`: the first value of the named
attribute decoded as UTF-8, or `""` when the attribute is absent or its
value list is empty. A first value that is not valid UTF-8 raises
`UnicodeDecodeError`, modelled as `Except.error`. -/
def attr_s (entry : Entry) (attr_name : String) : Except String String :=
  match lookupA entry attr_name with
  | some (v :: _) =>
    match utf8Decode v with
    | some cs => .ok (String.mk cs)
    | none => .error "UnicodeDecodeError"
  | some [] => .ok ""
  | none => .ok ""

/-- A canonical record as extracted by the normalizer stage: the four
canonical attributes read by `result_to_org` after renaming. -/
structure Record where
  displayName : String
  title : String
  manager : String
  dept : String
deriving DecidableEq

/-- The normalizer stage for one entry: `canonicalize_attrs` followed by
`attr_s` extraction of displayName, title, manager and departmentNumber,
in the order `result_to_org` performs it. -/
def normalizeEntry (entry : Entry) : Except String Record := do
  let e ← canonicalize_attrs entry
  let dName ← attr_s e "displayName"
  let title ← attr_s e "title"
  let mgr ← attr_s e "manager"
  let dept ← attr_s e "departmentNumber"
  pure ⟨dName, title, mgr, dept⟩

/-- A canonicalized record together with its distinguished name, the shape
consumed by the builder loop body. -/
structure RecordC where
  dn : String
  displayName : String
  title : String
  manager : String
  dept : String
deriving DecidableEq

/-- The OrgModel built by `result_to_org`: six insertion-ordered dicts. -/
structure Org where
  reports_to : List (String × List String)
  depts : List (String × List String)
  dept_of : List (String × String)
  title_of : List (String × String)
  mgr_of : List (String × String)
  display_name : List (String × String)
deriving DecidableEq

/-- The OrgModel with all six tables empty. -/
def emptyOrg : Org := ⟨[], [], [], [], [], []⟩

/-- One iteration of the `result_to_org` loop body on a normalized record:

    display_name[dn] = attr_s(entry, "displayName")
    if mgr: mgr_of[dn] = mgr; reports_to.setdefault(mgr, []).append(dn)
    if dept: depts.setdefault(dept, []).append(dn); dept_of[dn] = dept
    title_of[dn] = title

The `if mgr:` / `if dept:` truthiness tests are string non-emptiness. The
four statements touch disjoint dicts, so they are written as one record
update. -/
def buildStep (o : Org) (r : RecordC) : Org :=
  { reports_to := if r.manager = "" then o.reports_to else appendAssoc o.reports_to r.manager r.dn
    depts := if r.dept = "" then o.depts else appendAssoc o.depts r.dept r.dn
    dept_of := if r.dept = "" then o.dept_of else updAssoc o.dept_of r.dn r.dept
    title_of := updAssoc o.title_of r.dn r.title
    mgr_of := if r.manager = "" then o.mgr_of else updAssoc o.mgr_of r.dn r.manager
    display_name := updAssoc o.display_name r.dn r.displayName }

/-- The builder over a sequence of already-normalized records, in input
order (the spec's Org Model Builder contract). -/
def buildOrg (rs : List RecordC) : Org := rs.foldl buildStep emptyOrg

/-- Models the full `result_to_org(result)` loop over raw
`(dn, entry)` pairs: skip pairs whose dn is `None`, normalize the entry
(propagating any exception the normalizer raises), and fold the builder
step. -/
def result_to_org_from : List (Option String × Entry) → Org → Except String Org
  | [], o => .ok o
  | (none, _) :: rest, o => result_to_org_from rest o
  | (some dn, e) :: rest, o =>
    match normalizeEntry e with
    | .error msg => .error msg
    | .ok r => result_to_org_from rest (buildStep o ⟨dn, r.displayName, r.title, r.manager, r.dept⟩)

/-- Models `result_to_org(result)` (without the optional preprocess hook). -/
def result_to_org (result : List (Option String × Entry)) : Except String Org :=
  result_to_org_from result emptyOrg

/-- Models `ldap.dn.explode_dn(dn_str, 1)[0]` as used by `dn_to_ident`:
the value of the first RDN of the distinguished name, with the attribute
type stripped (the notypes flag is set, so `cn=Bob,dc=x` yields `Bob`, not
`cn=Bob`). Simplification: RDNs are split on raw commas and the type on a
raw equals sign, without RFC 4514 escape handling, which the inputs
considered here never use. -/
def dn_to_ident (dn_str : String) : String :=
  let first := dn_str.data.takeWhile (fun c => c != ',')
  String.mk ((first.dropWhile (fun c => c != '=')).drop 1)

/-- Models `title_s(dn, title_of)`: `title_of.get(dn, '(missing from database)')`. -/
def title_s (dn : String) (title_of : List (String × String)) : String :=
  (lookupA title_of dn).getD "(missing from database)"

/-- Models `name_s(dn, display_name)`: `display_name.get(dn, dn_to_ident(dn))`. -/
def name_s (dn : String) (display_name : List (String × String)) : String :=
  (lookupA display_name dn).getD (dn_to_ident dn)

/-- Models the `name_and_title` template filter: resolved display name,
newline, resolved title. -/
def name_and_title (dn : String) (display_name title_of : List (String × String)) : String :=
  name_s dn display_name ++ "\n" ++ title_s dn title_of

/-- True for characters the `snake_case` filter keeps: the regex word class
of `re.sub(r"\W+", "_", s)`. Python's `\w` is Unicode-aware; the model uses
the ASCII word class (letters, digits, underscore), which agrees with
Python on all ASCII department names. -/
def isWordChar (c : Char) : Bool := c.isAlphanum || c == '_'

/-- Models `re.sub(r"\W+", "_", s)` as a left-to-right scan: word
characters are copied and each maximal run of non-word characters is
collapsed to a single underscore. The flag records whether the scanner is
inside a non-word run whose underscore has already been emitted. -/
def subNonWord : Bool → List Char → List Char
  | _, [] => []
  | inRun, c :: cs =>
    if isWordChar c then c :: subNonWord false cs
    else if inRun then subNonWord true cs
    else '_' :: subNonWord true cs

/-- Models `str.strip("_")`: drop every leading and trailing occurrence of
the character. -/
def stripChar (c : Char) (l : List Char) : List Char :=
  ((l.dropWhile (· == c)).reverse.dropWhile (· == c)).reverse

/-- ASCII lowercasing of a string, modelling `str.lower()` on the ASCII
range. -/
def asciiLower (l : List Char) : List Char := l.map Char.toLower

/-- Models the `snake_case` template filter:
`re.sub(r"\W+", "_", s).strip("_").lower()`. -/
def snake_case (s : String) : String :=
  String.mk (asciiLower (stripChar '_' (subNonWord false s.data)))

/-- True when `d` has the same word-ness as `c`. -/
def sameWordness (c d : Char) : Bool := isWordChar d == isWordChar c

/-- Modelled from the spec words for the slug transform: split the string
into maximal runs of characters of equal word-ness. -/
def maximalRuns : List Char → List (List Char)
  | [] => []
  | c :: cs =>
    (c :: cs.takeWhile (sameWordness c)) :: maximalRuns (cs.dropWhile (sameWordness c))
termination_by l => l.length
decreasing_by
  simp only [List.length_cons]
  exact Nat.lt_succ_of_le (List.Sublist.length_le (List.dropWhile_sublist _))

/-- Modelled from the spec words: replace every maximal run of non-word
characters with a single underscore, keeping word runs verbatim. -/
def specReplaceRuns (l : List Char) : List Char :=
  ((maximalRuns l).map (fun run =>
    match run with
    | [] => []
    | d :: _ => if isWordChar d then run else ['_'])).flatten

/-- Modelled from the spec words for the cluster internal identifier:
replace every maximal run of non-word characters with a single underscore,
then strip leading and trailing underscores, then lowercase. -/
def snake_case_spec (s : String) : String :=
  String.mk (asciiLower (stripChar '_' (specReplaceRuns s.data)))

/-- The literal text of `ORGCHART_TEMPLATE_STR` before the first `for` tag
(the graph header: the template's leading newline, the strict digraph
opening, the global styling, and the indentation preceding the removed
department `for` tag). -/
def GRAPH_HEADER : String :=
  "\nstrict digraph orgchart \x7b\n  fontsize = 10;\n  fontname = \"Helvetica\";\n  node [\n    shape = box,\n    fontname = \"Helvetica\",\n    fontsize = 10\n  ];\n  "

/-- The literal text of `ORGCHART_TEMPLATE_STR` after the last `endfor`
tag (the graph footer). The whitespace between the two loops is removed by
the `\x7b%- for mgr_dn %\x7d` whitespace-stripping tag. -/
def GRAPH_FOOTER : String := "\n\x7d\n\n"

/-- One iteration of the department loop of the template: a subgraph
cluster whose internal identifier is the slugged department, whose label is
the department verbatim, and one quoted two-line node per member in stored
order. Jinja2 whitespace rules applied: `trim_blocks` is off, and the
member loop uses `\x7b%-` tags which strip the newline-plus-indent around
the member lines. -/
def renderDept (org : Org) (dept : String) (members : List String) : String :=
  "\n  subgraph cluster_" ++ snake_case dept ++ " \x7b\n    label = \"" ++ dept ++ "\";"
    ++ String.join (members.map (fun dn =>
        "\n    \"" ++ name_and_title dn org.display_name org.title_of ++ "\";"))
    ++ "\n  \x7d\n  "

/-- One iteration of the manager loop of the template: one grouped edge
statement from the manager's node label to each report's node label in
stored order. -/
def renderMgr (org : Org) (mgr : String) (reports : List String) : String :=
  "\n  \"" ++ name_and_title mgr org.display_name org.title_of ++ "\" -> \x7b"
    ++ String.join (reports.map (fun dn =>
        "\n    \"" ++ name_and_title dn org.display_name org.title_of ++ "\""))
    ++ "\n  \x7d\n  "

/-- The stream of text chunks `gen_orgchart` writes for an OrgModel: the
header, one chunk per department in dict order, one chunk per manager in
dict order, and the footer. -/
def renderChunks (org : Org) : List String :=
  GRAPH_HEADER
    :: (org.depts.map (fun p => renderDept org p.1 p.2)
        ++ org.reports_to.map (fun p => renderMgr org p.1 p.2)
        ++ [GRAPH_FOOTER])

/-- The complete document rendered from an OrgModel (the template applied
to the org dict). -/
def gen_orgchart_doc (org : Org) : String := String.join (renderChunks org)

/-- Models `stream(org).dump(fh)`: one renderer run over an output sink
holding `buf`, appending each chunk in order. -/
def writeAll (buf : String) (chunks : List String) : String :=
  chunks.foldl (fun acc c => acc ++ c) buf

/-- Sample input: the same identifier twice under one manager, with
different field values (a duplicate-identifier result set). -/
def teamDup : List RecordC :=
  [⟨"cn=a,dc=x", "A1", "T1", "cn=m,dc=x", ""⟩,
   ⟨"cn=a,dc=x", "A2", "T2", "cn=m,dc=x", ""⟩]

/-- Sample input: two distinct records reporting to one manager. -/
def teamTwo : List RecordC :=
  [⟨"cn=a,dc=x", "A", "TA", "cn=m,dc=x", ""⟩,
   ⟨"cn=b,dc=x", "B", "TB", "cn=m,dc=x", ""⟩]

/-- Sample input: two records sharing department Eng with an unrelated
record without a department between them. -/
def teamDept : List RecordC :=
  [⟨"cn=a,dc=x", "A", "TA", "", "Eng"⟩,
   ⟨"cn=c,dc=x", "C", "TC", "", ""⟩,
   ⟨"cn=b,dc=x", "B", "TB", "", "Eng"⟩]

/-! ### Helper lemmas -/

theorem lookupA_updAssoc {α : Type} (m : List (String × α)) (k key : String) (v : α) :
    lookupA (updAssoc m k v) key = if k = key then some v else lookupA m key := by
  induction m with
  | nil => simp [updAssoc, lookupA]
  | cons p rest ih =>
    obtain ⟨k1, v1⟩ := p
    by_cases h1 : k1 = k
    · subst h1
      by_cases h2 : k1 = key <;> simp [updAssoc, lookupA, h2]
    · by_cases h2 : k1 = key
      · subst h2
        have : ¬ k = k1 := fun h => h1 h.symm
        simp [updAssoc, lookupA, h1, this]
      · simp [updAssoc, lookupA, h1, h2, ih]

theorem lookupA_appendAssoc {α : Type} (m : List (String × List α)) (k key : String) (v : α) :
    lookupA (appendAssoc m k v) key =
      if k = key then some ((lookupA m k).getD [] ++ [v]) else lookupA m key := by
  induction m with
  | nil => simp [appendAssoc, lookupA]
  | cons p rest ih =>
    obtain ⟨k1, ws⟩ := p
    by_cases h1 : k1 = k
    · subst h1
      by_cases h2 : k1 = key <;> simp [appendAssoc, lookupA, h2]
    · by_cases h2 : k1 = key
      · subst h2
        have : ¬ k = k1 := fun h => h1 h.symm
        simp [appendAssoc, lookupA, h1, this]
      · simp [appendAssoc, lookupA, h1, h2, ih]

theorem lookupList_appendAssoc {α : Type} (m : List (String × List α)) (k key : String) (v : α) :
    lookupList (appendAssoc m k v) key =
      if k = key then lookupList m key ++ [v] else lookupList m key := by
  unfold lookupList
  rw [lookupA_appendAssoc]
  by_cases h : k = key
  · subst h; simp
  · simp [h]

theorem foldl_append_eq_join (chunks : List String) (buf : String) :
    chunks.foldl (fun acc c => acc ++ c) buf = buf ++ String.join chunks := by
  induction chunks generalizing buf with
  | nil => simp [String.join, String.append_empty]
  | cons c cs ih =>
    have hjoin : String.join (c :: cs) = c ++ String.join cs := by
      show List.foldl (fun r s => r ++ s) "" (c :: cs) = c ++ String.join cs
      rw [List.foldl_cons, String.empty_append]
      exact ih c
    rw [List.foldl_cons, ih (buf ++ c), hjoin, String.append_assoc]

theorem getLast?_cons_or {α : Type} (a : α) (l : List α) :
    (a :: l).getLast? = l.getLast?.or (some a) := by
  rw [List.getLast?_cons]
  cases l.getLast? <;> rfl

theorem mem_of_getElemQ {α : Type} :
    ∀ (l : List α) (n : Nat) (x : α), l[n]? = some x → x ∈ l := by
  intro l
  induction l with
  | nil => intro n x h; simp at h
  | cons a as ih =>
    intro n x h
    cases n with
    | zero =>
      rw [List.getElem?_cons_zero] at h
      exact (Option.some.inj h) ▸ List.mem_cons_self a as
    | succ n2 =>
      rw [List.getElem?_cons_succ] at h
      exact List.mem_cons_of_mem a (ih n2 x h)

theorem pair_sublist_of_getElemQ {α : Type} :
    ∀ (l : List α) (i j : Nat) (x y : α), i < j → l[i]? = some x → l[j]? = some y →
      List.Sublist [x, y] l := by
  intro l
  induction l with
  | nil => intro i j x y hij hx hy; simp at hx
  | cons a as ih =>
    intro i j x y hij hx hy
    cases i with
    | zero =>
      cases j with
      | zero => omega
      | succ j2 =>
        rw [List.getElem?_cons_zero] at hx
        rw [List.getElem?_cons_succ] at hy
        exact (Option.some.inj hx) ▸
          List.Sublist.cons₂ a (List.singleton_sublist.mpr (mem_of_getElemQ as j2 y hy))
    | succ i2 =>
      cases j with
      | zero => omega
      | succ j2 =>
        rw [List.getElem?_cons_succ] at hx
        rw [List.getElem?_cons_succ] at hy
        exact List.Sublist.cons a (ih i2 j2 x y (by omega) hx hy)

theorem display_name_foldl (rs : List RecordC) (o : Org) (dn : String) :
    lookupA (rs.foldl buildStep o).display_name dn =
      (((rs.filter (fun r => r.dn == dn)).map RecordC.displayName).getLast?).or
        (lookupA o.display_name dn) := by
  induction rs generalizing o with
  | nil => simp [Option.none_or]
  | cons r rest ih =>
    rw [List.foldl_cons, ih (buildStep o r)]
    have hupd : lookupA (buildStep o r).display_name dn
        = if r.dn = dn then some r.displayName else lookupA o.display_name dn :=
      lookupA_updAssoc o.display_name r.dn dn r.displayName
    by_cases hr : r.dn = dn
    · have hb : (r.dn == dn) = true := by simp [hr]
      rw [hupd, if_pos hr, List.filter_cons, hb]
      simp only [if_true]
      rw [List.map_cons, getLast?_cons_or, Option.or_assoc]
      rfl
    · have hb : (r.dn == dn) = false := by simp [hr]
      rw [hupd, if_neg hr, List.filter_cons, hb]
      simp only [Bool.false_eq_true, if_false]

theorem title_of_foldl (rs : List RecordC) (o : Org) (dn : String) :
    lookupA (rs.foldl buildStep o).title_of dn =
      (((rs.filter (fun r => r.dn == dn)).map RecordC.title).getLast?).or
        (lookupA o.title_of dn) := by
  induction rs generalizing o with
  | nil => simp [Option.none_or]
  | cons r rest ih =>
    rw [List.foldl_cons, ih (buildStep o r)]
    have hupd : lookupA (buildStep o r).title_of dn
        = if r.dn = dn then some r.title else lookupA o.title_of dn :=
      lookupA_updAssoc o.title_of r.dn dn r.title
    by_cases hr : r.dn = dn
    · have hb : (r.dn == dn) = true := by simp [hr]
      rw [hupd, if_pos hr, List.filter_cons, hb]
      simp only [if_true]
      rw [List.map_cons, getLast?_cons_or, Option.or_assoc]
      rfl
    · have hb : (r.dn == dn) = false := by simp [hr]
      rw [hupd, if_neg hr, List.filter_cons, hb]
      simp only [Bool.false_eq_true, if_false]

theorem reports_to_foldl (rs : List RecordC) (o : Org) (M : String) (hM : M ≠ "") :
    lookupList (rs.foldl buildStep o).reports_to M =
      lookupList o.reports_to M ++ (rs.filter (fun r => r.manager == M)).map RecordC.dn := by
  induction rs generalizing o with
  | nil => simp
  | cons r rest ih =>
    rw [List.foldl_cons, ih (buildStep o r)]
    by_cases hmgr : r.manager = ""
    · have hb : (r.manager == M) = false := by
        simp [hmgr]
        exact fun h => hM h.symm
      have hfield : (buildStep o r).reports_to = o.reports_to := by
        simp [buildStep, hmgr]
      rw [hfield, List.filter_cons, hb]
      simp only [Bool.false_eq_true, if_false]
    · have hfield : (buildStep o r).reports_to = appendAssoc o.reports_to r.manager r.dn := by
        simp [buildStep, hmgr]
      rw [hfield, lookupList_appendAssoc]
      by_cases hrM : r.manager = M
      · have hb : (r.manager == M) = true := by simp [hrM]
        rw [if_pos hrM, List.filter_cons, hb]
        simp [List.append_assoc]
      · have hb : (r.manager == M) = false := by simp [hrM]
        rw [if_neg hrM, List.filter_cons, hb]
        simp only [Bool.false_eq_true, if_false]

theorem depts_foldl (rs : List RecordC) (o : Org) (d : String) (hd : d ≠ "") :
    lookupList (rs.foldl buildStep o).depts d =
      lookupList o.depts d ++ (rs.filter (fun r => r.dept == d)).map RecordC.dn := by
  induction rs generalizing o with
  | nil => simp
  | cons r rest ih =>
    rw [List.foldl_cons, ih (buildStep o r)]
    by_cases hdept : r.dept = ""
    · have hb : (r.dept == d) = false := by
        simp [hdept]
        exact fun h => hd h.symm
      have hfield : (buildStep o r).depts = o.depts := by
        simp [buildStep, hdept]
      rw [hfield, List.filter_cons, hb]
      simp only [Bool.false_eq_true, if_false]
    · have hfield : (buildStep o r).depts = appendAssoc o.depts r.dept r.dn := by
        simp [buildStep, hdept]
      rw [hfield, lookupList_appendAssoc]
      by_cases hrd : r.dept = d
      · have hb : (r.dept == d) = true := by simp [hrd]
        rw [if_pos hrd, List.filter_cons, hb]
        simp [List.append_assoc]
      · have hb : (r.dept == d) = false := by simp [hrd]
        rw [if_neg hrd, List.filter_cons, hb]
        simp only [Bool.false_eq_true, if_false]

theorem depts_foldl_empty_key (rs : List RecordC) (o : Org) :
    lookupList (rs.foldl buildStep o).depts "" = lookupList o.depts "" := by
  induction rs generalizing o with
  | nil => rfl
  | cons r rest ih =>
    rw [List.foldl_cons, ih (buildStep o r)]
    by_cases hdept : r.dept = ""
    · have hfield : (buildStep o r).depts = o.depts := by simp [buildStep, hdept]
      rw [hfield]
    · have hfield : (buildStep o r).depts = appendAssoc o.depts r.dept r.dn := by
        simp [buildStep, hdept]
      rw [hfield, lookupList_appendAssoc, if_neg hdept]

theorem depts_buildOrg (rs : List RecordC) (d : String) (hd : d ≠ "") :
    lookupList (buildOrg rs).depts d = (rs.filter (fun r => r.dept == d)).map RecordC.dn := by
  unfold buildOrg
  rw [depts_foldl rs emptyOrg d hd]
  simp [emptyOrg, lookupList, lookupA]

theorem reports_to_buildOrg (rs : List RecordC) (M : String) (hM : M ≠ "") :
    lookupList (buildOrg rs).reports_to M
      = (rs.filter (fun r => r.manager == M)).map RecordC.dn := by
  unfold buildOrg
  rw [reports_to_foldl rs emptyOrg M hM]
  simp [emptyOrg, lookupList, lookupA]

theorem dropWhile_head_false {α : Type} (p : α → Bool) :
    ∀ (l : List α) (d : α) (ds : List α), l.dropWhile p = d :: ds → p d = false := by
  intro l
  induction l with
  | nil => intro d ds h; simp [List.dropWhile] at h
  | cons a as ih =>
    intro d ds h
    by_cases ha : p a = true
    · rw [List.dropWhile_cons_of_pos ha] at h
      exact ih d ds h
    · rw [List.dropWhile_cons_of_neg ha] at h
      obtain ⟨h1, _⟩ := List.cons.inj h
      subst h1
      simpa using ha

theorem specReplaceRuns_cons (c : Char) (cs : List Char) :
    specReplaceRuns (c :: cs) =
      (if isWordChar c then c :: cs.takeWhile (sameWordness c) else ['_'])
        ++ specReplaceRuns (cs.dropWhile (sameWordness c)) := by
  unfold specReplaceRuns
  rw [maximalRuns]
  simp only [List.map_cons, List.flatten_cons]

theorem subNonWord_word_append (ws l : List Char) (h : ∀ w ∈ ws, isWordChar w = true) :
    subNonWord false (ws ++ l) = ws ++ subNonWord false l := by
  induction ws with
  | nil => rfl
  | cons w ws ih =>
    have hw := h w (List.mem_cons_self w ws)
    have ih2 := ih (fun x hx => h x (List.mem_cons_of_mem w hx))
    simp [subNonWord, hw, ih2]

theorem subNonWord_nonword_append (ws l : List Char) (h : ∀ w ∈ ws, isWordChar w = false) :
    subNonWord true (ws ++ l) = subNonWord true l := by
  induction ws with
  | nil => rfl
  | cons w ws ih =>
    have hw := h w (List.mem_cons_self w ws)
    have ih2 := ih (fun x hx => h x (List.mem_cons_of_mem w hx))
    simp [subNonWord, hw, ih2]

theorem subNonWord_eq_spec_aux :
    ∀ (n : Nat) (l : List Char), l.length ≤ n → subNonWord false l = specReplaceRuns l := by
  intro n
  induction n with
  | zero =>
    intro l hl
    have hnil : l = [] := List.eq_nil_of_length_eq_zero (Nat.le_zero.mp hl)
    subst hnil
    simp [subNonWord, specReplaceRuns, maximalRuns]
  | succ n ih =>
    intro l hl
    cases l with
    | nil => simp [subNonWord, specReplaceRuns, maximalRuns]
    | cons c cs =>
      have hcs : cs.length ≤ n := Nat.le_of_succ_le_succ hl
      have hdlen : (cs.dropWhile (sameWordness c)).length ≤ n :=
        le_trans (List.Sublist.length_le (List.dropWhile_sublist (sameWordness c))) hcs
      have ihd := ih (cs.dropWhile (sameWordness c)) hdlen
      have hsplit := List.takeWhile_append_dropWhile (sameWordness c) cs
      cases hw : isWordChar c with
      | true =>
        have htw : ∀ w ∈ cs.takeWhile (sameWordness c), isWordChar w = true := by
          intro w hwmem
          have hpw := List.mem_takeWhile_imp hwmem
          simpa [sameWordness, hw] using hpw
        calc subNonWord false (c :: cs)
            = c :: subNonWord false cs := by simp [subNonWord, hw]
          _ = c :: subNonWord false
                (cs.takeWhile (sameWordness c) ++ cs.dropWhile (sameWordness c)) := by
              rw [hsplit]
          _ = c :: (cs.takeWhile (sameWordness c)
                ++ subNonWord false (cs.dropWhile (sameWordness c))) := by
              rw [subNonWord_word_append _ _ htw]
          _ = (c :: cs.takeWhile (sameWordness c))
                ++ specReplaceRuns (cs.dropWhile (sameWordness c)) := by
              rw [ihd]; rfl
          _ = specReplaceRuns (c :: cs) := by rw [specReplaceRuns_cons, if_pos hw]
      | false =>
        have htw : ∀ w ∈ cs.takeWhile (sameWordness c), isWordChar w = false := by
          intro w hwmem
          have hpw := List.mem_takeWhile_imp hwmem
          simpa [sameWordness, hw] using hpw
        have hstep1 : subNonWord false (c :: cs) = '_' :: subNonWord true cs := by
          simp [subNonWord, hw]
        have hstep2 : subNonWord true cs
            = subNonWord true (cs.dropWhile (sameWordness c)) := by
          conv_lhs => rw [show cs = cs.takeWhile (sameWordness c)
            ++ cs.dropWhile (sameWordness c) from hsplit.symm]
          exact subNonWord_nonword_append _ _ htw
        have hstep3 : subNonWord true (cs.dropWhile (sameWordness c))
            = subNonWord false (cs.dropWhile (sameWordness c)) := by
          cases hd : cs.dropWhile (sameWordness c) with
          | nil => rfl
          | cons d ds =>
            have hpd : sameWordness c d = false := dropWhile_head_false _ cs d ds hd
            have hdw : isWordChar d = true := by
              simpa [sameWordness, hw] using hpd
            simp [subNonWord, hdw]
        rw [hstep1, hstep2, hstep3, ihd, specReplaceRuns_cons, if_neg (by simp [hw])]
        rfl

theorem subNonWord_eq_spec (l : List Char) : subNonWord false l = specReplaceRuns l :=
  subNonWord_eq_spec_aux l.length l (le_refl _)

/-! ### Claim theorems -/

/-- C6: the cluster internal identifier transform of the code (regex
substitution, strip, lowercase) agrees with the spec description: replace
every maximal run of non-word characters with a single underscore, strip
leading and trailing underscores, then lowercase. -/
theorem snake_case_eq_spec (s : String) : snake_case s = snake_case_spec s := by
  unfold snake_case snake_case_spec
  rw [subNonWord_eq_spec]

/-- C5: the displayed title is `title_of[id]` whenever the identifier is a
key of the title table (a stored empty string is rendered as-is), and the
sentinel `(missing from database)` when the identifier is absent. -/
theorem title_resolution (dn : String) (t : List (String × String)) (v : String) :
    (lookupA t dn = some v → title_s dn t = v)
  ∧ (lookupA t dn = none → title_s dn t = "(missing from database)") := by
  constructor <;> intro h <;> simp [title_s, h]

/-- Witness for C5: a stored empty title renders as the empty string, not
the sentinel; an absent identifier renders with the sentinel. -/
theorem title_resolution_witness :
    title_s "cn=a,dc=x" [("cn=a,dc=x", "")] = ""
  ∧ title_s "cn=b,dc=x" [("cn=a,dc=x", "")] = "(missing from database)" :=
  ⟨(title_resolution "cn=a,dc=x" [("cn=a,dc=x", "")] "").1 (by decide),
   (title_resolution "cn=b,dc=x" [("cn=a,dc=x", "")] "").2 (by decide)⟩

/-- C1 counterexample: for an identifier present in the model with an empty
display name, the rendered name is the empty string, not the
identifier-derived fallback `alice` the claim requires. -/
theorem name_fallback_cex :
    name_s "cn=alice,dc=example,dc=com" [("cn=alice,dc=example,dc=com", "")] = ""
  ∧ dn_to_ident "cn=alice,dc=example,dc=com" = "alice"
  ∧ ("" : String) ≠ "alice" := by
  exact ⟨by decide, by decide, by decide⟩

/-- C1 amended: the displayed name is `display_name_of[id]` whenever the
identifier is a key of the table (the stored value rendered as-is, even
when empty), and the identifier-derived fallback exactly when the
identifier is absent from the table. -/
theorem name_resolution (dn : String) (m : List (String × String)) (v : String) :
    (lookupA m dn = some v → name_s dn m = v)
  ∧ (lookupA m dn = none → name_s dn m = dn_to_ident dn) := by
  constructor <;> intro h <;> simp [name_s, h]

/-- Witness for the amended C1 at concrete inputs. -/
theorem name_resolution_witness :
    name_s "cn=bob,dc=example,dc=com" [("cn=bob,dc=example,dc=com", "Bob")] = "Bob"
  ∧ name_s "cn=eve,dc=example,dc=com" [("cn=bob,dc=example,dc=com", "Bob")]
      = dn_to_ident "cn=eve,dc=example,dc=com" :=
  ⟨(name_resolution "cn=bob,dc=example,dc=com" [("cn=bob,dc=example,dc=com", "Bob")] "Bob").1
      (by decide),
   (name_resolution "cn=eve,dc=example,dc=com" [("cn=bob,dc=example,dc=com", "Bob")] "Bob").2
      (by decide)⟩

/-- C2: the normalizer is not total. Renaming any variant attribute
mutates the dict during iteration and raises a RuntimeError (the
size-change variant when the canonical key already exists), and a non-UTF-8
first value raises UnicodeDecodeError; only the absent-attribute and
empty-value-list cases degrade to empty fields as claimed. -/
theorem normalizer_failure_eval :
    canonicalize_attrs [("department", [[69, 110, 103]])]
      = Except.error "RuntimeError: dictionary keys changed during iteration"
  ∧ canonicalize_attrs [("department", [[69]]), ("departmentNumber", [[70]])]
      = Except.error "RuntimeError: dictionary changed size during iteration"
  ∧ attr_s [("displayName", [[255]])] "displayName" = Except.error "UnicodeDecodeError"
  ∧ (normalizeEntry [("department", [[69, 110, 103]])]).toOption = none
  ∧ normalizeEntry [("displayName", [[65]]), ("title", [])] = Except.ok ⟨"A", "", "", ""⟩ :=
  ⟨rfl, rfl, rfl, rfl, rfl⟩

/-- C9: applying the attribute rename map to an entry containing none of
the schema-variant keys (department, comment, company, employeeID,
thumbnailPhoto, streetaddress) returns the entry unchanged. -/
theorem canonicalize_noop (entry : Entry) (h : ∀ p ∈ entry, lookupA MAP_ATTRS p.1 = none) :
    canonicalize_attrs entry = Except.ok entry := by
  have hf : entry.find? (fun p => (lookupA MAP_ATTRS p.1).isSome) = none :=
    List.find?_eq_none.mpr (fun p hp => by simp [h p hp])
  simp [canonicalize_attrs, hf]

/-- Witness for C9: an already-canonical entry passes through unchanged. -/
theorem canonicalize_noop_witness :
    canonicalize_attrs [("displayName", [[66]]), ("title", [[67]]), ("departmentNumber", [[68]])]
      = Except.ok [("displayName", [[66]]), ("title", [[67]]), ("departmentNumber", [[68]])] :=
  canonicalize_noop _ (by decide)

/-- C4: the renderer is deterministic. A renderer run over any sink state
appends exactly `gen_orgchart_doc org`, a function of the OrgModel alone,
so two independent runs over the same model write byte-identical
documents. -/
theorem renderer_deterministic (org : Org) (buf1 buf2 : String) :
    writeAll buf1 (renderChunks org) = buf1 ++ gen_orgchart_doc org
  ∧ writeAll buf2 (renderChunks org) = buf2 ++ gen_orgchart_doc org :=
  ⟨foldl_append_eq_join (renderChunks org) buf1,
   foldl_append_eq_join (renderChunks org) buf2⟩

/-- C8: the empty input sequence builds the OrgModel with all six tables
empty, and rendering it yields exactly the graph header followed by the
footer: no cluster chunks and no edge-group chunks. -/
theorem empty_input_empty_model :
    buildOrg [] = emptyOrg
  ∧ result_to_org [] = Except.ok emptyOrg
  ∧ emptyOrg.reports_to = [] ∧ emptyOrg.depts = [] ∧ emptyOrg.dept_of = []
  ∧ emptyOrg.title_of = [] ∧ emptyOrg.mgr_of = [] ∧ emptyOrg.display_name = []
  ∧ renderChunks emptyOrg = [GRAPH_HEADER, GRAPH_FOOTER]
  ∧ gen_orgchart_doc emptyOrg = GRAPH_HEADER ++ GRAPH_FOOTER :=
  ⟨rfl, rfl, rfl, rfl, rfl, rfl, rfl, rfl, rfl, rfl⟩

/-- C10: the slug transform is not injective: the distinct departments
`R&D` and `R_D` produce the same cluster internal identifier, so a model
holding both as distinct clusters renders two clusters with colliding
internal identifiers. -/
theorem slug_collision :
    snake_case "R&D" = snake_case "R_D"
  ∧ "R&D" ≠ "R_D"
  ∧ (buildOrg [⟨"cn=a,dc=x", "A", "T", "", "R&D"⟩,
               ⟨"cn=b,dc=x", "B", "T", "", "R_D"⟩]).depts.map Prod.fst = ["R&D", "R_D"]
  ∧ (buildOrg [⟨"cn=a,dc=x", "A", "T", "", "R&D"⟩,
               ⟨"cn=b,dc=x", "B", "T", "", "R_D"⟩]).depts.map (fun p => snake_case p.1)
      = ["r_d", "r_d"] := by
  exact ⟨by decide, by decide, by decide, by decide⟩

/-- C3 counterexample: with a duplicate identifier reporting to the same
manager, the record appears twice, not exactly once, in the manager's edge
group. -/
theorem builder_duplicate_cex :
    lookupList (buildOrg teamDup).reports_to "cn=m,dc=x" = ["cn=a,dc=x", "cn=a,dc=x"]
  ∧ List.count "cn=a,dc=x" (lookupList (buildOrg teamDup).reports_to "cn=m,dc=x") = 2 := by
  exact ⟨by decide, by decide⟩

/-- C3 amended: the Builder is total and, for every input sequence
(duplicate identifiers included), `display_name_of` and `title_of` hold the
last occurrence's values, and each manager's edge group lists the reporting
records' identifiers in input order, one entry per record occurrence; when
identifiers are unique, a record with manager identifier M appears exactly
once as a target in M's edge group. -/
theorem builder_duplicate_handling (rs : List RecordC) (dn M : String) (hM : M ≠ "") :
    lookupA (buildOrg rs).display_name dn
        = ((rs.filter (fun r => r.dn == dn)).map RecordC.displayName).getLast?
  ∧ lookupA (buildOrg rs).title_of dn
        = ((rs.filter (fun r => r.dn == dn)).map RecordC.title).getLast?
  ∧ lookupList (buildOrg rs).reports_to M
        = (rs.filter (fun r => r.manager == M)).map RecordC.dn
  ∧ ((rs.map RecordC.dn).Nodup →
      ∀ r ∈ rs, r.manager = M →
        List.count r.dn (lookupList (buildOrg rs).reports_to M) = 1) := by
  refine ⟨?_, ?_, reports_to_buildOrg rs M hM, ?_⟩
  · unfold buildOrg
    rw [display_name_foldl rs emptyOrg dn]
    simp [emptyOrg, lookupA, Option.or_none]
  · unfold buildOrg
    rw [title_of_foldl rs emptyOrg dn]
    simp [emptyOrg, lookupA, Option.or_none]
  · intro hnd r hr hm
    rw [reports_to_buildOrg rs M hM]
    have hrf : r ∈ rs.filter (fun x => x.manager == M) :=
      List.mem_filter.mpr ⟨hr, by simp [hm]⟩
    have hmem : r.dn ∈ (rs.filter (fun x => x.manager == M)).map RecordC.dn :=
      List.mem_map_of_mem RecordC.dn hrf
    have hge : 0 < List.count r.dn ((rs.filter (fun x => x.manager == M)).map RecordC.dn) :=
      List.count_pos_iff.mpr hmem
    have hsub : List.Sublist ((rs.filter (fun x => x.manager == M)).map RecordC.dn)
        (rs.map RecordC.dn) :=
      List.Sublist.map RecordC.dn (List.filter_sublist rs)
    have hle := hsub.count_le r.dn
    have hone : List.count r.dn (rs.map RecordC.dn) = 1 :=
      List.count_eq_one_of_mem hnd (List.mem_map_of_mem RecordC.dn hr)
    omega

/-- Witness for the amended C3: last-write-wins on the duplicate input, and
input-order edge group with exactly-once membership on the duplicate-free
input. -/
theorem builder_duplicate_witness :
    lookupA (buildOrg teamDup).display_name "cn=a,dc=x" = some "A2"
  ∧ lookupA (buildOrg teamDup).title_of "cn=a,dc=x" = some "T2"
  ∧ lookupList (buildOrg teamTwo).reports_to "cn=m,dc=x" = ["cn=a,dc=x", "cn=b,dc=x"]
  ∧ List.count "cn=a,dc=x" (lookupList (buildOrg teamTwo).reports_to "cn=m,dc=x") = 1 := by
  have h1 := builder_duplicate_handling teamDup "cn=a,dc=x" "cn=m,dc=x" (by decide)
  have h2 := builder_duplicate_handling teamTwo "cn=a,dc=x" "cn=m,dc=x" (by decide)
  refine ⟨?_, ?_, ?_, ?_⟩
  · rw [h1.1]; decide
  · rw [h1.2.1]; decide
  · rw [h2.2.2.1]; decide
  · exact h2.2.2.2 (by decide) ⟨"cn=a,dc=x", "A", "TA", "cn=m,dc=x", ""⟩ (by decide) (by decide)

/-- C7: for a duplicate-free input, two records sharing a non-empty
department string both appear in that department's member list in their
relative input order, and a record whose department is empty appears in no
department's member list. -/
theorem dept_grouping (rs : List RecordC) (hnd : (rs.map RecordC.dn).Nodup) :
    (∀ (i j : Nat) (r1 r2 : RecordC) (d : String),
        i < j → rs[i]? = some r1 → rs[j]? = some r2 →
        r1.dept = d → r2.dept = d → d ≠ "" →
        List.Sublist [r1.dn, r2.dn] (lookupList (buildOrg rs).depts d))
  ∧ (∀ r ∈ rs, r.dept = "" → ∀ d, r.dn ∉ lookupList (buildOrg rs).depts d) := by
  constructor
  · intro i j r1 r2 d hij h1 h2 hd1 hd2 hdne
    rw [depts_buildOrg rs d hdne]
    have hpair : List.Sublist [r1, r2] rs := pair_sublist_of_getElemQ rs i j r1 r2 hij h1 h2
    have hfil := List.Sublist.filter (fun r => r.dept == d) hpair
    have heq : [r1, r2].filter (fun r => r.dept == d) = [r1, r2] := by
      simp [List.filter, hd1, hd2]
    rw [heq] at hfil
    simpa using List.Sublist.map RecordC.dn hfil
  · intro r hr hrd d hmem
    by_cases hd : d = ""
    · subst hd
      have hempty : lookupList (buildOrg rs).depts "" = [] := by
        unfold buildOrg
        rw [depts_foldl_empty_key]
        simp [emptyOrg, lookupList, lookupA]
      rw [hempty] at hmem
      exact absurd hmem (List.not_mem_nil _)
    · rw [depts_buildOrg rs d hd] at hmem
      obtain ⟨r2, hr2f, hr2dn⟩ := List.mem_map.mp hmem
      obtain ⟨hr2mem, hr2d⟩ := List.mem_filter.mp hr2f
      have hrr : r = r2 := List.inj_on_of_nodup_map hnd hr hr2mem hr2dn.symm
      rw [← hrr] at hr2d
      have : r.dept = d := by simpa using hr2d
      rw [hrd] at this
      exact hd this.symm

/-- Witness for C7: on a concrete input, the two Eng records appear in the
Eng member list in input order, and the department-less record is in no
member list. -/
theorem dept_grouping_witness :
    lookupList (buildOrg teamDept).depts "Eng" = ["cn=a,dc=x", "cn=b,dc=x"]
  ∧ List.Sublist ["cn=a,dc=x", "cn=b,dc=x"] (lookupList (buildOrg teamDept).depts "Eng")
  ∧ "cn=c,dc=x" ∉ lookupList (buildOrg teamDept).depts "Eng" := by
  have h := dept_grouping teamDept (by decide)
  refine ⟨by decide, ?_, ?_⟩
  · exact h.1 0 2 ⟨"cn=a,dc=x", "A", "TA", "", "Eng"⟩ ⟨"cn=b,dc=x", "B", "TB", "", "Eng"⟩
      "Eng" (by decide) (by decide) (by decide) rfl rfl (by decide)
  · exact h.2 ⟨"cn=c,dc=x", "C", "TC", "", ""⟩ (by decide) rfl "Eng"

end GenOrgchart
